import Mathlib

/-!
Verification of the plexy runtime engine: a shallow embedding of the tunnel
registry (`src/state.rs`), the load-balancing strategies
(`src/state/strategy.rs`), the bidirectional copy engine (`src/aio.rs`) and
the tunnel-spec text grammar (`src/tunnel/parser.rs`), with theorems about
the remote health state machine, remote selection, event sinks and parsing.

Modelling conventions:
* `IndexMap` becomes an insertion-ordered association list; `IndexMap::remove`
  is `swap_remove` (it moves the last entry into the removed slot), embedded
  as `alSwapRemove`.
* `u64`/`usize` counters are `Nat` with release-mode wrapping arithmetic
  (`inc64`, `dec64`, `add64`, all reduced mod `2 ^ 64`).
* `f32` second durations (`connect_timeout`, `dead_retry`,
  `Duration::from_secs_f32`) are exact rationals; no claim depends on float
  rounding.
* `SystemTime::now()` timestamps are abstracted to the fact that the field
  is set (`Option Unit`).
* spawned prober tasks (`tokio::spawn` in `State::check_dead`) are recorded
  in a task table with an `aborted` flag; `JoinHandle::abort` sets the flag,
  dropping a handle leaves the task untouched (tokio detaches on drop).
  The async prober body is split into its two arms, `State.probe_succeeded`
  and `State.probe_failed`.
* `rand::thread_rng().gen_range(0..size)` takes the random draw as an
  explicit `rnd` argument reduced mod `size`; theorems quantify over it.
-/

deriving instance DecidableEq for Except

namespace Plexy

/-- SocketSpec keys are compared structurally; the claims only need equality,
so the normalized textual form stands in for the value. -/
abbrev SocketSpec := String

/-- Modulus of `u64` / 64-bit `usize` arithmetic. -/
def U64MOD : Nat := 2 ^ 64

/-- Wrapping `x + 1` on a `u64`/`usize` counter. -/
def inc64 (x : Nat) : Nat := (x + 1) % U64MOD

/-- Wrapping `x - 1` on a `u64`/`usize` counter (release-mode semantics). -/
def dec64 (x : Nat) : Nat := (x + (U64MOD - 1)) % U64MOD

/-- Wrapping `x + y` on a `u64` counter. -/
def add64 (x y : Nat) : Nat := (x + y) % U64MOD

/-- Lookup in an insertion-ordered map (`IndexMap::get`): the first entry
with the key. -/
def alGet {α : Type} : List (SocketSpec × α) → SocketSpec → Option α
  | [], _ => none
  | (k', v) :: rest, k => if k' = k then some v else alGet rest k

/-- Value update in place (`IndexMap::get_mut` followed by writes): the entry
keeps its position and its key. -/
def alSet {α : Type} : List (SocketSpec × α) → SocketSpec → α →
    List (SocketSpec × α)
  | [], _, _ => []
  | (k', v') :: rest, k, v =>
    if k' = k then (k', v) :: alSet rest k v else (k', v') :: alSet rest k v

/-- Insertion (`IndexMap::insert`): replaces in place when the key is present,
otherwise appends at the end. -/
def alInsert {α : Type} (m : List (SocketSpec × α)) (k : SocketSpec) (v : α) :
    List (SocketSpec × α) :=
  if (alGet m k).isSome then alSet m k v else m ++ [(k, v)]

/-- Removal (`IndexMap::remove`, which is `swap_remove`): the removed slot is
filled with the map's last entry. -/
def alSwapRemove {α : Type} :
    List (SocketSpec × α) → SocketSpec → Option (α × List (SocketSpec × α))
  | [], _ => none
  | (k', v) :: rest, k =>
    if k' = k then
      some (v, match rest.getLast? with
        | none => []
        | some last => last :: rest.dropLast)
    else
      match alSwapRemove rest k with
      | none => none
      | some (v', rest') => some (v', (k', v) :: rest')

/-- Order-preserving removal by key (`DashMap::remove` on the tunnels map,
where no order is observed). -/
def alRemove {α : Type} :
    List (SocketSpec × α) → SocketSpec → Option (α × List (SocketSpec × α))
  | [], _ => none
  | (k', v) :: rest, k =>
    if k' = k then some (v, rest)
    else
      match alRemove rest k with
      | none => none
      | some (v', rest') => some (v', (k', v) :: rest')

/-- Error kinds of `src/error.rs` that the embedded operations surface. -/
inductive Error
  | TunnelExists
  | TunnelDoesNotExist
  | RemoteExists
  | RemoteDoesNotExist
  | NoRemote
deriving DecidableEq

/-- Load-balancing strategy tag (`TunnelLBStrategy`); the boxed strategy
object created by `TunnelLBStrategy::create` is determined by the tag. -/
inductive TunnelLBStrategy
  | Random
  | RoundRobin
  | MinimumOpenConnections
deriving DecidableEq

/-- Per-remote connection options (`TunnelRemoteOptions` of `src/tunnel.rs`). -/
structure TunnelRemoteOptions where
  errors_till_dead : Nat
  connect_timeout : Rat
  dead_retry : Rat
  tls : Bool
deriving DecidableEq

/-- Tunnel options (`TunnelOptions` of `src/tunnel.rs`). -/
structure TunnelOptions where
  lb_strategy : TunnelLBStrategy
  remote_connect_retries : Nat
  options : TunnelRemoteOptions
deriving DecidableEq

/-- The compiled-in process default (`DEFAULT_TUNNEL_OPTIONS`). -/
def defaultTunnelOptions : TunnelOptions :=
  { lb_strategy := .Random
    remote_connect_retries := 3
    options :=
      { errors_till_dead := 1
        connect_timeout := 10
        dead_retry := 10
        tls := false } }

/-- Aggregate per-tunnel counters (`TunnelStats`). -/
structure TunnelStats where
  bytes_sent : Nat
  streams_open : Nat
  bytes_received : Nat
  total_connections : Nat
  errors : Nat
deriving DecidableEq

/-- The zero value `TunnelStats::default()`. -/
def TunnelStats.default : TunnelStats :=
  { bytes_sent := 0, streams_open := 0, bytes_received := 0
    total_connections := 0, errors := 0 }

/-- Per-remote counters (`RemoteInfo`). -/
structure RemoteInfo where
  bytes_sent : Nat
  streams_open : Nat
  streams_pending : Nat
  bytes_received : Nat
  total_connections : Nat
  last_error_time : Option Unit
  num_errors : Nat
  total_errors : Nat
deriving DecidableEq

/-- The zero value `RemoteInfo::default()`. -/
def RemoteInfo.default : RemoteInfo :=
  { bytes_sent := 0, streams_open := 0, streams_pending := 0
    bytes_received := 0, total_connections := 0, last_error_time := none
    num_errors := 0, total_errors := 0 }

/-- A dead remote and the latest prober handle (`DeadRemote`); the handle is
the id of a spawned probe task. -/
structure DeadRemote where
  remote : RemoteInfo
  join_handle : Option Nat
deriving DecidableEq

/-- One tunnel's registry entry (`TunnelInfo`); `close_channel` is a runtime
handle whose effect is modelled in the copy-engine section. -/
structure TunnelInfo where
  stats : TunnelStats
  remotes : List (SocketSpec × RemoteInfo)
  dead_remotes : List (SocketSpec × DeadRemote)
  options : TunnelOptions
  lb_strategy : TunnelLBStrategy
  last_selected_index : Option Nat
deriving DecidableEq

/-- Constructor `TunnelInfo::new`. -/
def TunnelInfo.new (remotes : List SocketSpec) (options : TunnelOptions) :
    TunnelInfo :=
  { stats := TunnelStats.default
    remotes := remotes.map (fun k => (k, RemoteInfo.default))
    dead_remotes := []
    options := options
    lb_strategy := options.lb_strategy
    last_selected_index := none }

/-- A spawned dead-remote probe task (`tokio::spawn` in `State::check_dead`):
its arguments and whether `JoinHandle::abort` has been called on it. -/
structure ProbeTask where
  id : Nat
  loc : SocketSpec
  remote : SocketSpec
  timeout : Rat
  after : Rat
  aborted : Bool
deriving DecidableEq

/-- The process-wide registry (`State`): the tunnels map plus the table of
spawned probe tasks and the next fresh task id. -/
structure State where
  tunnels : List (SocketSpec × TunnelInfo)
  tasks : List ProbeTask
  nextTask : Nat
deriving DecidableEq

/-- The empty registry (`State::new`, ignoring config and TLS plumbing). -/
def State.new : State := { tunnels := [], tasks := [], nextTask := 0 }

/-- Overwrite one tunnel's entry after mutating it under the entry lock. -/
def State.setTunnel (st : State) (loc : SocketSpec) (ti : TunnelInfo) :
    State :=
  { st with tunnels := alSet st.tunnels loc ti }

/-- Spawn of the dead-remote prober (`State::check_dead`'s `tokio::spawn`):
returns the new `JoinHandle` id and the registry with the task recorded. -/
def State.spawnCheckDead (st : State) (loc remote : SocketSpec)
    (timeout after : Rat) : Nat × State :=
  (st.nextTask,
   { st with
      tasks := st.tasks ++
        [{ id := st.nextTask, loc := loc, remote := remote
           timeout := timeout, after := after, aborted := false }]
      nextTask := st.nextTask + 1 })

/-- Registration (`State::add_tunnel`). -/
def State.add_tunnel (st : State) (loc : SocketSpec)
    (remotes : List SocketSpec) (options : TunnelOptions) :
    Except Error State :=
  if (alGet st.tunnels loc).isSome then .error .TunnelExists
  else .ok { st with
    tunnels := st.tunnels ++ [(loc, TunnelInfo.new remotes options)] }

/-- Abort (`JoinHandle::abort`) every task whose id is in `hs`. -/
def abortTasks (tasks : List ProbeTask) (hs : List Nat) : List ProbeTask :=
  tasks.map (fun t => if t.id ∈ hs then { t with aborted := true } else t)

/-- Removal of a tunnel (`State::remove_tunnel`): every dead remote's prober
handle is taken and aborted before the info is returned. -/
def State.remove_tunnel (st : State) (loc : SocketSpec) :
    Except Error (TunnelInfo × State) :=
  match alRemove st.tunnels loc with
  | none => .error .TunnelDoesNotExist
  | some (ti, rest) =>
    .ok ({ ti with dead_remotes :=
            ti.dead_remotes.map (fun p => (p.1, { p.2 with join_handle := none })) },
         { st with
            tunnels := rest
            tasks := abortTasks st.tasks
              (ti.dead_remotes.filterMap (fun p => p.2.join_handle)) })

/-- Removal of one remote (`State::remove_remote_from_tunnel`): drops the
entry from `remotes` or else from `dead_remotes`; a dead entry's prober
handle is merely dropped with it, which detaches the task. -/
def State.remove_remote_from_tunnel (st : State) (loc remote : SocketSpec) :
    Except Error (RemoteInfo × State) :=
  match alGet st.tunnels loc with
  | none => .error .TunnelDoesNotExist
  | some ti =>
    match alSwapRemove ti.remotes remote with
    | some (ri, remotes') =>
      .ok (ri, st.setTunnel loc { ti with remotes := remotes' })
    | none =>
      match alSwapRemove ti.dead_remotes remote with
      | some (d, dead') =>
        .ok (d.remote, st.setTunnel loc { ti with dead_remotes := dead' })
      | none => .error .RemoteDoesNotExist

/-- Addition of one remote (`State::add_remote_to_tunnel`). -/
def State.add_remote_to_tunnel (st : State) (loc remote : SocketSpec) :
    Except Error State :=
  match alGet st.tunnels loc with
  | none => .error .TunnelDoesNotExist
  | some ti =>
    if (alGet ti.remotes remote).isSome ∨ (alGet ti.dead_remotes remote).isSome
    then .error .RemoteExists
    else .ok (st.setTunnel loc
      { ti with remotes := ti.remotes ++ [(remote, RemoteInfo.default)] })

/-- Event sink `State::client_connected`. -/
def State.client_connected (st : State) (loc : SocketSpec) : State :=
  match alGet st.tunnels loc with
  | none => st
  | some ti =>
    st.setTunnel loc
      { ti with stats :=
          { ti.stats with
              total_connections := inc64 ti.stats.total_connections
              streams_open := inc64 ti.stats.streams_open } }

/-- Event sink `State::remote_connected`. -/
def State.remote_connected (st : State) (loc remote : SocketSpec) : State :=
  match alGet st.tunnels loc with
  | none => st
  | some ti =>
    match alGet ti.remotes remote with
    | none => st
    | some ri =>
      let ri' : RemoteInfo :=
        { ri with
            streams_open := inc64 ri.streams_open
            total_connections := inc64 ri.total_connections
            streams_pending := dec64 ri.streams_pending
            num_errors := 0 }
      st.setTunnel loc { ti with remotes := alSet ti.remotes remote ri' }

/-- The counter updates `State::remote_error` applies in place to a live
remote's record: bump `total_errors` and `num_errors`, stamp
`last_error_time`, release the pending stream slot. -/
def RemoteInfo.onError (ri : RemoteInfo) : RemoteInfo :=
  { ri with
      total_errors := inc64 ri.total_errors
      num_errors := inc64 ri.num_errors
      last_error_time := some ()
      streams_pending := dec64 ri.streams_pending }

/-- The counter updates the failure arm of `State::check_dead` applies to a
dead remote's record: as `onError` but with no pending stream to release
(the probe was no client attempt). -/
def RemoteInfo.onProbeError (ri : RemoteInfo) : RemoteInfo :=
  { ri with
      total_errors := inc64 ri.total_errors
      num_errors := inc64 ri.num_errors
      last_error_time := some () }

/-- Event sink `State::remote_error`: bumps the tunnel error aggregate,
updates the live remote's counters, and when the consecutive error count has
reached `errors_till_dead` moves the entry to `dead_remotes` wrapped with a
freshly spawned prober handle.  The probe delay passed to `check_dead` is the
literal `Duration::from_secs_f32(10.0)` of the source (the line carries a
TODO to take it from the options instead). -/
def State.remote_error (st : State) (loc remote : SocketSpec)
    (options : TunnelRemoteOptions) : State :=
  match alGet st.tunnels loc with
  | none => st
  | some ti =>
    let stats' := { ti.stats with errors := inc64 ti.stats.errors }
    match alGet ti.remotes remote with
    | none => st.setTunnel loc { ti with stats := stats' }
    | some ri =>
      let ri' : RemoteInfo := ri.onError
      let remotes1 := alSet ti.remotes remote ri'
      if ri'.num_errors ≥ options.errors_till_dead then
        match alSwapRemove remotes1 remote with
        | some (rec, remotes2) =>
          let spawned := st.spawnCheckDead loc remote options.connect_timeout 10
          (spawned.2).setTunnel loc
            { ti with
                stats := stats'
                remotes := remotes2
                dead_remotes := alInsert ti.dead_remotes remote
                  { remote := rec, join_handle := some spawned.1 } }
        | none =>
          st.setTunnel loc { ti with stats := stats', remotes := remotes1 }
      else
        st.setTunnel loc { ti with stats := stats', remotes := remotes1 }

/-- Success arm of the prober body in `State::check_dead`: when the dead
entry is still present it returns to `remotes` with `num_errors` reset. -/
def State.probe_succeeded (st : State) (loc remote : SocketSpec) : State :=
  match alGet st.tunnels loc with
  | none => st
  | some ti =>
    match alSwapRemove ti.dead_remotes remote with
    | none => st
    | some (d, dead') =>
      st.setTunnel loc
        { ti with
            dead_remotes := dead'
            remotes := alInsert ti.remotes remote
              { d.remote with num_errors := 0 } }

/-- Failure arm of the prober body in `State::check_dead`: the dead remote's
own error counters are bumped and a new probe is scheduled with the same
timeout and delay; the tunnel-level `stats.errors` aggregate is not touched
on this path. -/
def State.probe_failed (st : State) (loc remote : SocketSpec)
    (timeout after : Rat) : State :=
  match alGet st.tunnels loc with
  | none => st
  | some ti =>
    match alGet ti.dead_remotes remote with
    | none => st
    | some d =>
      let ri' : RemoteInfo := d.remote.onProbeError
      let spawned := st.spawnCheckDead loc remote timeout after
      let d' : DeadRemote := { remote := ri', join_handle := some spawned.1 }
      (spawned.2).setTunnel loc
        { ti with dead_remotes := alSet ti.dead_remotes remote d' }

/-- Event sink `State::update_transferred`. -/
def State.update_transferred (st : State) (loc remote : SocketSpec)
    (sent : Bool) (bytes : Nat) : State :=
  match alGet st.tunnels loc with
  | none => st
  | some ti =>
    let stats' :=
      if sent then { ti.stats with bytes_sent := add64 ti.stats.bytes_sent bytes }
      else { ti.stats with bytes_received := add64 ti.stats.bytes_received bytes }
    let remotes' :=
      match alGet ti.remotes remote with
      | none => ti.remotes
      | some ri =>
        alSet ti.remotes remote
          (if sent then { ri with bytes_sent := add64 ri.bytes_sent bytes }
           else { ri with bytes_received := add64 ri.bytes_received bytes })
    st.setTunnel loc { ti with stats := stats', remotes := remotes' }

/-- Event sink `State::client_disconnected`. -/
def State.client_disconnected (st : State) (loc : SocketSpec)
    (remote : Option SocketSpec) : State :=
  match alGet st.tunnels loc with
  | none => st
  | some ti =>
    let stats' := { ti.stats with streams_open := dec64 ti.stats.streams_open }
    let remotes' :=
      match remote with
      | none => ti.remotes
      | some r =>
        match alGet ti.remotes r with
        | none => ti.remotes
        | some ri =>
          alSet ti.remotes r { ri with streams_open := dec64 ri.streams_open }
    st.setTunnel loc { ti with stats := stats', remotes := remotes' }

/-- Strategy `Random::select_remote`: a uniform draw over `0..size`; the
draw is the explicit `rnd` oracle reduced mod the size. -/
def Random.select_remote (ti : TunnelInfo) (rnd : Nat) : Nat :=
  rnd % ti.remotes.length

/-- Strategy `RoundRobin::select_remote`: one past the last selected index,
`len - 1` (saturating) when none is recorded, reduced mod the length; the
`+ 1` is `usize` arithmetic. -/
def RoundRobin.select_remote (ti : TunnelInfo) : Nat :=
  (ti.last_selected_index.getD (ti.remotes.length - 1) + 1) % U64MOD
    % ti.remotes.length

/-- Load of one remote in `MinimumOpenConnections::select_remote`:
`streams_open + streams_pending` in `usize` arithmetic. -/
def remoteLoad (r : RemoteInfo) : Nat :=
  (r.streams_open + r.streams_pending) % U64MOD

/-- The scan loop of `MinimumOpenConnections::select_remote` over the
enumerated loads: early exit on a zero load, otherwise track the first
strictly smaller load; `minVal` starts at `usize::MAX`. -/
def minOpenGo : Nat → Nat → Nat → List Nat → Nat
  | _, minIdx, _, [] => minIdx
  | idx, minIdx, minVal, l :: rest =>
    if l = 0 then idx
    else if l < minVal then minOpenGo (idx + 1) idx l rest
    else minOpenGo (idx + 1) minIdx minVal rest

/-- Strategy `MinimumOpenConnections::select_remote`. -/
def MinimumOpenConnections.select_remote (ti : TunnelInfo) : Nat :=
  minOpenGo 0 0 (U64MOD - 1) (ti.remotes.map (fun p => remoteLoad p.2))

/-- Dispatch through the boxed `LBStrategy` object. -/
def strategySelect (ti : TunnelInfo) (rnd : Nat) : Nat :=
  match ti.lb_strategy with
  | .Random => Random.select_remote ti rnd
  | .RoundRobin => RoundRobin.select_remote ti
  | .MinimumOpenConnections => MinimumOpenConnections.select_remote ti

/-- Selection entry point `TunnelInfo::select_remote`: empty map fails with
`NoRemote`, a single remote bypasses the strategy, the selected index is
recorded in `last_selected_index` and the key is read back by index. -/
def TunnelInfo.select_remote (ti : TunnelInfo) (rnd : Nat) :
    Except Error (SocketSpec × TunnelInfo) :=
  let size := ti.remotes.length
  if size = 0 then .error .NoRemote
  else
    let idx := if size = 1 then 0 else strategySelect ti rnd
    let ti' := { ti with last_selected_index := some idx }
    match ti'.remotes.get? idx with
    | some p => .ok (p.1, ti')
    | none => .error .NoRemote

/-- Repeated selection (`rnd` is irrelevant to the deterministic
strategies), collecting the recorded index of each successful step. -/
def selectIdxTrace : Nat → TunnelInfo → List Nat
  | 0, _ => []
  | n + 1, ti =>
    match ti.select_remote 0 with
    | .ok (_, ti') => ti'.last_selected_index.getD 0 :: selectIdxTrace n ti'
    | .error _ => []

/-- Poll result of an async step (`std::task::Poll`). -/
inductive Poll (α : Type)
  | ready (a : α)
  | pending
deriving DecidableEq

/-- IO failures surfaced by the copy engine; `writeZero` is the
`ErrorKind::WriteZero` failure raised on a zero-byte write. -/
inductive CopyErr
  | readError
  | writeError
  | flushError
  | writeZero
deriving DecidableEq

/-- The per-direction copy state (`CopyBuffer` of `src/aio.rs`); the byte
buffer itself is abstracted to its length, and the `update_progress`
callback, which calls `State::update_transferred`, is modelled by that
registry operation. -/
structure CopyBuffer where
  read_done : Bool
  need_flush : Bool
  pos : Nat
  cap : Nat
  amt : Nat
  bufLen : Nat
deriving DecidableEq

/-- Outcome of one `poll_read` of the source stream: would-block, IO error,
or `n` bytes appended into the free part of the buffer. -/
inductive ReadEv
  | pending
  | fail
  | bytes (n : Nat)
deriving DecidableEq

/-- Outcome of one `poll_write` of the destination stream. -/
inductive WriteEv
  | pending
  | fail
  | wrote (n : Nat)
deriving DecidableEq

/-- Outcome of one `poll_flush` of the destination stream. -/
inductive FlushEv
  | pending
  | fail
  | flushed
deriving DecidableEq

/-- The environment a copy direction runs against: whether the tunnel's
close signal has transitioned (the `finish` future of the `watch` channel is
complete — `poll_finish` treats a channel error as completion too), and the
successive outcomes of the reader, writer and flush polls.  An exhausted
outcome list behaves as would-block. -/
structure CopyWorld where
  finishReady : Bool
  reads : List ReadEv
  writes : List WriteEv
  flushes : List FlushEv
deriving DecidableEq

/-- One reader poll (`CopyBuffer::poll_fill_buf`): on success the filled
length grows by what the reader produced (bounded by the free space) and
`read_done` records whether the reader made no progress (EOF). -/
def CopyBuffer.poll_fill_buf (b : CopyBuffer) (w : CopyWorld) :
    Poll (Except CopyErr Unit) × CopyBuffer × CopyWorld :=
  match w.reads with
  | [] => (.pending, b, w)
  | ev :: rest =>
    let w' := { w with reads := rest }
    match ev with
    | .pending => (.pending, b, w')
    | .fail => (.ready (.error .readError), b, w')
    | .bytes n =>
      let filled := b.cap + min n (b.bufLen - b.cap)
      (.ready (.ok ()),
       { b with read_done := b.cap == filled, cap := filled }, w')

/-- One writer poll (`CopyBuffer::poll_write_buf`): writes out of
`[pos, cap)`; when the writer would block, the buffer is opportunistically
topped up from the reader before yielding. -/
def CopyBuffer.poll_write_buf (b : CopyBuffer) (w : CopyWorld) :
    Poll (Except CopyErr Nat) × CopyBuffer × CopyWorld :=
  match w.writes with
  | [] => (.pending, b, w)
  | ev :: rest =>
    let w' := { w with writes := rest }
    match ev with
    | .fail => (.ready (.error .writeError), b, w')
    | .wrote n => (.ready (.ok (min n (b.cap - b.pos))), b, w')
    | .pending =>
      if !b.read_done ∧ b.cap < b.bufLen then
        match b.poll_fill_buf w' with
        | (.pending, b2, w2) => (.pending, b2, w2)
        | (.ready (.error e), b2, w2) => (.ready (.error e), b2, w2)
        | (.ready (.ok _), b2, w2) => (.pending, b2, w2)
      else (.pending, b, w')

/-- One flush poll of the destination stream. -/
def pollFlush (w : CopyWorld) : Poll (Except CopyErr Unit) × CopyWorld :=
  match w.flushes with
  | [] => (.pending, w)
  | ev :: rest =>
    let w' := { w with flushes := rest }
    match ev with
    | .pending => (.pending, w')
    | .fail => (.ready (.error .flushError), w')
    | .flushed => (.ready (.ok ()), w')

/-- The `while self.pos < self.cap` write-out loop of
`CopyBuffer::poll_copy`: each successful write advances `pos`, accumulates
the `u64` total and marks `need_flush`; a zero-byte write is the fatal
`WriteZero`.  `fuel` bounds the iterations (each one either returns or
strictly advances `pos`). -/
def CopyBuffer.writeOut : Nat → CopyBuffer → CopyWorld →
    Poll (Except CopyErr Unit) × CopyBuffer × CopyWorld
  | 0, b, w => (.pending, b, w)
  | fuel + 1, b, w =>
    if b.pos < b.cap then
      match b.poll_write_buf w with
      | (.pending, b2, w2) => (.pending, b2, w2)
      | (.ready (.error e), b2, w2) => (.ready (.error e), b2, w2)
      | (.ready (.ok i), b2, w2) =>
        if i = 0 then (.ready (.error .writeZero), b2, w2)
        else
          CopyBuffer.writeOut fuel
            { b2 with pos := b2.pos + i, amt := add64 b2.amt i
                      need_flush := true } w2
    else (.ready (.ok ()), b, w)

/-- The main per-direction loop (`CopyBuffer::poll_copy`).  Every iteration
first polls the close-signal future (`poll_finish`) and, when it is
complete, returns the current byte count as success; otherwise it refills
the drained buffer (flushing first when a blocked read risks a write-read
deadlock), writes the buffer out, and on a drained buffer after EOF flushes
and returns the total.  `fuel` bounds the iterations of the outer `loop`. -/
def CopyBuffer.poll_copy : Nat → CopyBuffer → CopyWorld →
    Poll (Except CopyErr Nat) × CopyBuffer × CopyWorld
  | 0, b, w => (.pending, b, w)
  | fuel + 1, b, w =>
    if w.finishReady then (.ready (.ok b.amt), b, w)
    else
      let step2 :
          (Poll (Except CopyErr Nat) × CopyBuffer × CopyWorld) ⊕
            (CopyBuffer × CopyWorld) :=
        if b.pos = b.cap ∧ !b.read_done then
          let b0 := { b with pos := 0, cap := 0 }
          match b0.poll_fill_buf w with
          | (.ready (.ok _), b1, w1) => .inr (b1, w1)
          | (.ready (.error e), b1, w1) => .inl (.ready (.error e), b1, w1)
          | (.pending, b1, w1) =>
            if b1.need_flush then
              match pollFlush w1 with
              | (.pending, w2) => .inl (.pending, b1, w2)
              | (.ready (.error e), w2) => .inl (.ready (.error e), b1, w2)
              | (.ready (.ok _), w2) =>
                .inl (.pending, { b1 with need_flush := false }, w2)
            else .inl (.pending, b1, w1)
        else .inr (b, w)
      match step2 with
      | .inl out => out
      | .inr (b1, w1) =>
        match CopyBuffer.writeOut (b1.cap + 1) b1 w1 with
        | (.pending, b2, w2) => (.pending, b2, w2)
        | (.ready (.error e), b2, w2) => (.ready (.error e), b2, w2)
        | (.ready (.ok _), b2, w2) =>
          if b2.pos = b2.cap ∧ b2.read_done then
            match pollFlush w2 with
            | (.pending, w3) => (.pending, b2, w3)
            | (.ready (.error e), w3) => (.ready (.error e), b2, w3)
            | (.ready (.ok _), w3) => (.ready (.ok b2.amt), b2, w3)
          else CopyBuffer.poll_copy fuel b2 w2

/-- Parse failure severity (`nom::Err`): `soft` is the recoverable
`Err::Error` that `alt` and `opt` backtrack over, `hard` the terminal
`Err::Failure`. -/
inductive NErr
  | soft
  | hard
deriving DecidableEq

/-- Result of a parser on its remaining input (`nom::IResult`). -/
abbrev PRes (α : Type) : Type := Except NErr (List Char × α)

/-- Combinator `char(c)`. -/
def pcharP (c : Char) (i : List Char) : PRes Char :=
  match i with
  | c' :: rest => if c' = c then .ok (rest, c) else .error .soft
  | [] => .error .soft

/-- Combinator `take_while(p)`: never fails. -/
def takeWhileP (p : Char → Bool) (i : List Char) : PRes (List Char) :=
  .ok (i.drop (i.takeWhile p).length, i.takeWhile p)

/-- Combinator `take_till(p)`: never fails. -/
def takeTillP (p : Char → Bool) (i : List Char) : PRes (List Char) :=
  takeWhileP (fun c => !p c) i

/-- Combinator `take_while_m_n(0, n, p)`: up to `n` matching characters. -/
def takeUpToP (n : Nat) (p : Char → Bool) (i : List Char) : PRes (List Char) :=
  let t := (i.takeWhile p).take n
  .ok (i.drop t.length, t)

/-- Combinator `alt((p, q))`: `q` runs only on a recoverable failure. -/
def alt2 {α : Type} (p q : List Char → PRes α) (i : List Char) : PRes α :=
  match p i with
  | .error .soft => q i
  | r => r

/-- Combinator `map(p, f)`. -/
def pmap {α β : Type} (p : List Char → PRes α) (f : α → β) (i : List Char) :
    PRes β :=
  match p i with
  | .ok (rest, o) => .ok (rest, f o)
  | .error e => .error e

/-- Combinator `pair(p, q)`. -/
def pairP {α β : Type} (p : List Char → PRes α) (q : List Char → PRes β)
    (i : List Char) : PRes (α × β) :=
  match p i with
  | .error e => .error e
  | .ok (i1, a) =>
    match q i1 with
    | .error e => .error e
    | .ok (i2, b) => .ok (i2, (a, b))

/-- Combinator `separated_pair(p, sep, q)`. -/
def sepPairP {α σ β : Type} (p : List Char → PRes α)
    (sep : List Char → PRes σ) (q : List Char → PRes β) (i : List Char) :
    PRes (α × β) :=
  pmap (pairP p (pairP sep q)) (fun x => (x.1, x.2.2)) i

/-- Combinator `delimited(l, p, r)`. -/
def delimitedP {σ α τ : Type} (l : List Char → PRes σ)
    (p : List Char → PRes α) (r : List Char → PRes τ) (i : List Char) :
    PRes α :=
  pmap (pairP l (pairP p r)) (fun x => x.2.1) i

/-- Combinator `verify(p, f)`. -/
def verifyP {α : Type} (p : List Char → PRes α) (f : α → Bool)
    (i : List Char) : PRes α :=
  match p i with
  | .ok (rest, o) => if f o then .ok (rest, o) else .error .soft
  | .error e => .error e

/-- Combinator `recognize(p)`: the consumed slice of the input. -/
def recognizeP {α : Type} (p : List Char → PRes α) (i : List Char) :
    PRes (List Char) :=
  match p i with
  | .ok (rest, _) => .ok (rest, i.take (i.length - rest.length))
  | .error e => .error e

/-- Combinator `opt(p)`: a recoverable failure yields `none`, a terminal
failure propagates. -/
def optP {α : Type} (p : List Char → PRes α) (i : List Char) :
    PRes (Option α) :=
  match p i with
  | .ok (rest, o) => .ok (rest, some o)
  | .error .soft => .ok (i, none)
  | .error .hard => .error .hard

/-- Combinator `all_consuming(p)`. -/
def allConsumingP {α : Type} (p : List Char → PRes α) (i : List Char) :
    PRes α :=
  match p i with
  | .ok (rest, o) => if rest = [] then .ok ([], o) else .error .soft
  | .error e => .error e

/-- The loop of `separated_list1`: stops when the separator or the element
soft-fails, propagates terminal failures, and errors when the separator
consumes nothing (nom's infinite-loop check); `fuel` bounds the iterations
(the separator consumes on every continuing step). -/
def sepList1Go {σ α : Type} (sep : List Char → PRes σ)
    (elt : List Char → PRes α) :
    Nat → List Char → List α → Except NErr (List Char × List α)
  | 0, i, acc => .ok (i, acc.reverse)
  | fuel + 1, i, acc =>
    match sep i with
    | .error .soft => .ok (i, acc.reverse)
    | .error .hard => .error .hard
    | .ok (i1, _) =>
      if i1.length = i.length then .error .soft
      else
        match elt i1 with
        | .error .soft => .ok (i, acc.reverse)
        | .error .hard => .error .hard
        | .ok (i2, o) => sepList1Go sep elt fuel i2 (o :: acc)

/-- Combinator `separated_list1(sep, elt)`. -/
def sepList1 {σ α : Type} (sep : List Char → PRes σ)
    (elt : List Char → PRes α) (i : List Char) : PRes (List α) :=
  match elt i with
  | .error e => .error e
  | .ok (i1, o) => sepList1Go sep elt (i1.length + 1) i1 [o]

/-- Character class `is_other_hostname_char`. -/
def is_other_hostname_char (c : Char) : Bool :=
  c = '.' ∨ c = '-'

/-- Character class `is_option_name_char`. -/
def is_option_name_char (c : Char) : Bool :=
  c.isAlphanum ∨ c = '_'

/-- Hexadecimal digit as in `char::is_ascii_hexdigit`. -/
def isHexDigitChar (c : Char) : Bool :=
  c.isDigit ∨ (('a' ≤ c ∧ c ≤ 'f') ∨ ('A' ≤ c ∧ c ≤ 'F'))

/-- Decimal digit run with an upper value bound: the shape of nom's
`character::complete::u8`/`u16` (at least one digit, recoverable failure on
overflow). -/
def boundedNumP (maxVal : Nat) (i : List Char) : PRes Nat :=
  let ds := i.takeWhile Char.isDigit
  if ds = [] then .error .soft
  else
    let v := ds.foldl (fun a c => a * 10 + (c.toNat - 48)) 0
    if v ≤ maxVal then .ok (i.drop ds.length, v) else .error .soft

/-- Parser `port` (`nom::character::complete::u16`). -/
def portP (i : List Char) : PRes Nat := boundedNumP 65535 i

/-- Combinator `alpha1`: one or more ASCII letters. -/
def alpha1P (i : List Char) : PRes (List Char) :=
  let a := i.takeWhile Char.isAlpha
  if a = [] then .error .soft else .ok (i.drop a.length, a)

/-- Parser `host_name`: a letter followed by letters, digits, dots and
dashes, not ending in a dot or dash. -/
def host_name (i : List Char) : PRes (List Char) :=
  verifyP
    (recognizeP (pairP alpha1P
      (takeWhileP (fun x => x.isAlphanum ∨ is_other_hostname_char x))))
    (fun x => match x.getLast? with
      | some c => !is_other_hostname_char c
      | none => false) i

/-- Parser `ipv6_segment`. -/
def ipv6_segment (i : List Char) : PRes (List Char) :=
  takeUpToP 4 isHexDigitChar i

/-- Parser `ipv6`. -/
def ipv6P (i : List Char) : PRes (List Char) :=
  delimitedP (pcharP '[')
    (recognizeP (sepList1 (pcharP ':') ipv6_segment))
    (pcharP ']') i

/-- Parser `ipv4`: four dot-separated `u8` runs. -/
def ipv4P (i : List Char) : PRes (List Char) :=
  recognizeP
    (pairP (boundedNumP 255)
      (pairP (pcharP '.')
        (pairP (boundedNumP 255)
          (pairP (pcharP '.')
            (pairP (boundedNumP 255)
              (pairP (pcharP '.') (boundedNumP 255))))))) i

/-- The socket value built by `src/tunnel/parser.rs` (that file's
`SocketSpec` struct with a host string and a port). -/
structure PSocketSpec where
  host : List Char
  port : Nat
deriving DecidableEq

/-- Parser `socket_spec1`: a bare port on loopback. -/
def socket_spec1 (i : List Char) : PRes PSocketSpec :=
  pmap portP (fun port => { host := "127.0.0.1".toList, port := port }) i

/-- Parser `socket_spec2`: `host:port` with a hostname, IPv4 or bracketed
IPv6 host. -/
def socket_spec2 (i : List Char) : PRes PSocketSpec :=
  pmap (sepPairP (alt2 host_name (alt2 ipv4P ipv6P)) (pcharP ':') portP)
    (fun x => { host := x.1, port := x.2 }) i

/-- Parser `socket_spec`. -/
def socket_spec (i : List Char) : PRes PSocketSpec :=
  alt2 socket_spec2 socket_spec1 i

/-- The remote-option fields the options parser writes (that parser
version's `TunnelOptions.options`; only the touched field is modelled). -/
structure PRemoteOptions where
  remote_connect_timeout : Rat
deriving DecidableEq

/-- The tunnel options built by the options parser. -/
structure PTunnelOptions where
  lb_strategy : TunnelLBStrategy
  remote_connect_retries : Nat
  options : PRemoteOptions
deriving DecidableEq

/-- Start value `TunnelOptions::default()` of the fold (the process
default). -/
def PTunnelOptions.default : PTunnelOptions :=
  { lb_strategy := .Random
    remote_connect_retries := 3
    options := { remote_connect_timeout := 10 } }

/-- Value grammar of `TunnelLBStrategy::from_str` after ASCII
lower-casing. -/
def parseStrategy (v : List Char) : Option TunnelLBStrategy :=
  let s := v.map Char.toLower
  if s = "random".toList then some .Random
  else if s = "roundrobin".toList ∨ s = "round-robin".toList ∨
      s = "round_robin".toList then some .RoundRobin
  else if s = "minimum-open-connections".toList ∨
      s = "minimum_open_connections".toList ∨
      s = "minimumopenconnections".toList ∨
      s = "min-open-connections".toList ∨
      s = "min_open_connections".toList ∨
      s = "minopenconnections".toList then some .MinimumOpenConnections
  else none

/-- Value grammar of `u16::from_str`: an optional leading plus sign and at
least one digit, in range. -/
def parseU16Str (v : List Char) : Option Nat :=
  let ds := match v with
    | '+' :: rest => rest
    | _ => v
  if ds ≠ [] ∧ ds.all Char.isDigit then
    let n := ds.foldl (fun a c => a * 10 + (c.toNat - 48)) 0
    if n ≤ 65535 then some n else none
  else none

/-- Finite-literal core of `f32::from_str`: optional sign, then digits with
an optional fraction (one of the two parts may be empty but not both) and an
optional exponent.  The special forms inf/infinity/nan and the rounding to
`f32` are not modelled; the claims use only whether parsing succeeds. -/
def parseF32Str (v : List Char) : Option Rat :=
  let core := match v with
    | '+' :: rest => (rest, (1 : Rat))
    | '-' :: rest => (rest, (-1 : Rat))
    | _ => (v, (1 : Rat))
  let ip := core.1.takeWhile Char.isDigit
  let afterInt := core.1.drop ip.length
  let intVal : Rat := (ip.foldl (fun a c => a * 10 + (c.toNat - 48)) 0 : Nat)
  let withFrac : Option (List Char × Rat) :=
    match afterInt with
    | '.' :: rest =>
      let fp := rest.takeWhile Char.isDigit
      if ip = [] ∧ fp = [] then none
      else
        some (rest.drop fp.length,
          intVal + (fp.foldl (fun a c => a * 10 + (c.toNat - 48)) 0 : Nat) /
            (10 : Rat) ^ fp.length)
    | _ => if ip = [] then none else some (afterInt, intVal)
  match withFrac with
  | none => none
  | some (afterFrac, mant) =>
    match afterFrac with
    | [] => some (core.2 * mant)
    | e :: rest =>
      if e = 'e' ∨ e = 'E' then
        let es := match rest with
          | '+' :: r2 => (r2, true)
          | '-' :: r2 => (r2, false)
          | _ => (rest, true)
        let ed := es.1.takeWhile Char.isDigit
        if ed = [] ∨ es.1.drop ed.length ≠ [] then none
        else
          let ex : Nat := ed.foldl (fun a c => a * 10 + (c.toNat - 48)) 0
          if es.2 then some (core.2 * mant * (10 : Rat) ^ ex)
          else some (core.2 * mant / (10 : Rat) ^ ex)
      else none

/-- The semantic fold of the `options` parser (`src/tunnel/parser.rs` lines
88-100): each `name=value` item lower-cases the name and must be one of
`strategy`, `retries`, `timeout` with a parseable value; any other name is
the terminal failure `err(k)`. -/
def applyOptions : List (List Char × List Char) → PTunnelOptions →
    Except NErr PTunnelOptions
  | [], o => .ok o
  | (k, v) :: items, o =>
    let kl := k.map Char.toLower
    if kl = "strategy".toList then
      match parseStrategy v with
      | some s => applyOptions items { o with lb_strategy := s }
      | none => .error .hard
    else if kl = "retries".toList then
      match parseU16Str v with
      | some n => applyOptions items { o with remote_connect_retries := n }
      | none => .error .hard
    else if kl = "timeout".toList then
      match parseF32Str v with
      | some t =>
        applyOptions items { o with options := { remote_connect_timeout := t } }
      | none => .error .hard
    else .error .hard

/-- Lexical item `name '=' value` of the options section. -/
def optionItem (i : List Char) : PRes (List Char × List Char) :=
  sepPairP (takeWhileP is_option_name_char) (pcharP '=')
    (takeTillP (fun c => c = ',' ∨ c = ']')) i

/-- Parser `options`: the comma-separated item list followed by the
semantic fold. -/
def optionsP (i : List Char) : PRes PTunnelOptions :=
  match sepList1 (pcharP ',') optionItem i with
  | .error e => .error e
  | .ok (rest, items) =>
    match applyOptions items PTunnelOptions.default with
    | .ok o => .ok (rest, o)
    | .error e => .error e

/-- The tunnel value built by the parser. -/
structure PTunnel where
  loc : PSocketSpec
  remote : List PSocketSpec
  options : Option PTunnelOptions
deriving DecidableEq

/-- Parser `tunnel`: `socket '=' remotes ('[' options ']')?`, consuming the
whole input. -/
def tunnelP (i : List Char) : PRes PTunnel :=
  allConsumingP
    (pmap
      (sepPairP socket_spec (pcharP '=')
        (pairP (sepList1 (pcharP ',') socket_spec)
          (optP (delimitedP (pcharP '[') optionsP (pcharP ']')))))
      (fun x => { loc := x.1, remote := x.2.1, options := x.2.2 })) i

/-! Association-list facts used by the registry theorems. -/

theorem alGet_alSet_self {α : Type} (m : List (SocketSpec × α))
    (k : SocketSpec) (v w : α) (h : alGet m k = some w) :
    alGet (alSet m k v) k = some v := by
  induction m with
  | nil => simp [alGet] at h
  | cons p rest ih =>
    obtain ⟨k', v'⟩ := p
    by_cases hk : k' = k
    · simp [alGet, alSet, hk]
    · simp only [alGet, alSet, if_neg hk] at h ⊢
      exact ih h

theorem alSet_keys {α : Type} (m : List (SocketSpec × α)) (k : SocketSpec)
    (v : α) : (alSet m k v).map Prod.fst = m.map Prod.fst := by
  induction m with
  | nil => rfl
  | cons p rest ih =>
    obtain ⟨k', v'⟩ := p
    by_cases hk : k' = k <;> simp [alSet, hk, ih]

theorem alGet_eq_none_of_keys {α : Type} (m : List (SocketSpec × α))
    (k : SocketSpec) (h : ∀ p ∈ m, p.1 ≠ k) : alGet m k = none := by
  induction m with
  | nil => rfl
  | cons p rest ih =>
    obtain ⟨k', v'⟩ := p
    have hk : k' ≠ k := h (k', v') (by simp)
    simp only [alGet, if_neg hk]
    exact ih (fun q hq => h q (by simp [hq]))

theorem mem_of_getLastEq {α : Type} (l : List α) (a : α)
    (h : l.getLast? = some a) : a ∈ l := by
  have hd := List.dropLast_append_getLast? a (Option.mem_def.mpr h)
  rw [← hd]
  exact List.mem_append_right _ (by simp)

/-- The tail that `swap_remove` builds from the remainder of the list keeps
only elements of that remainder. -/
def swapTail {α : Type} (rest : List (SocketSpec × α)) :
    List (SocketSpec × α) :=
  match rest.getLast? with
  | none => []
  | some last => last :: rest.dropLast

theorem swapTail_subset {α : Type} (rest : List (SocketSpec × α)) :
    ∀ p ∈ swapTail rest, p ∈ rest := by
  intro p hp
  unfold swapTail at hp
  cases hl : rest.getLast? with
  | none => rw [hl] at hp; simp at hp
  | some last =>
    rw [hl] at hp
    rcases List.mem_cons.mp hp with rfl | hp2
    · exact mem_of_getLastEq rest p hl
    · exact List.dropLast_subset _ hp2

theorem alSwapRemove_cons_pos {α : Type} (k' : SocketSpec) (v : α)
    (rest : List (SocketSpec × α)) (k : SocketSpec) (hk : k' = k) :
    alSwapRemove ((k', v) :: rest) k = some (v, swapTail rest) := by
  simp [alSwapRemove, hk, swapTail]

theorem alSwapRemove_cons_neg {α : Type} (k' : SocketSpec) (v : α)
    (rest : List (SocketSpec × α)) (k : SocketSpec) (hk : ¬ k' = k) :
    alSwapRemove ((k', v) :: rest) k =
      (alSwapRemove rest k).map (fun pr => (pr.1, (k', v) :: pr.2)) := by
  simp only [alSwapRemove, if_neg hk]
  cases alSwapRemove rest k with
  | none => rfl
  | some pr => rfl

theorem alSwapRemove_of_alGet {α : Type} (m : List (SocketSpec × α))
    (k : SocketSpec) (v : α) (h : alGet m k = some v) :
    ∃ m', alSwapRemove m k = some (v, m') ∧ ∀ p ∈ m', p ∈ m := by
  induction m with
  | nil => simp [alGet] at h
  | cons p rest ih =>
    obtain ⟨k', v'⟩ := p
    by_cases hk : k' = k
    · simp only [alGet, if_pos hk, Option.some.injEq] at h
      subst h
      refine ⟨swapTail rest, alSwapRemove_cons_pos _ _ rest k hk, ?_⟩
      exact fun q hq => List.mem_cons_of_mem _ (swapTail_subset rest q hq)
    · simp only [alGet, if_neg hk] at h
      obtain ⟨m', hm', hsub⟩ := ih h
      refine ⟨(k', v') :: m', ?_, ?_⟩
      · rw [alSwapRemove_cons_neg k' v' rest k hk, hm']
        rfl
      · intro q hq
        rcases List.mem_cons.mp hq with rfl | hq2
        · exact List.mem_cons_self _ _
        · exact List.mem_cons_of_mem _ (hsub q hq2)

theorem alGet_alSwapRemove_self {α : Type} (m : List (SocketSpec × α))
    (k : SocketSpec) (v : α) (m' : List (SocketSpec × α))
    (hnd : (m.map Prod.fst).Nodup) (h : alSwapRemove m k = some (v, m')) :
    alGet m' k = none := by
  induction m generalizing m' with
  | nil => simp [alSwapRemove] at h
  | cons p rest ih =>
    obtain ⟨k', v'⟩ := p
    simp only [List.map_cons, List.nodup_cons] at hnd
    by_cases hk : k' = k
    · rw [alSwapRemove_cons_pos k' v' rest k hk, Option.some.injEq,
        Prod.mk.injEq] at h
      refine alGet_eq_none_of_keys _ _ ?_
      intro q hq hqk
      rw [← h.2] at hq
      have hqrest := swapTail_subset rest q hq
      refine hnd.1 ?_
      rw [hk, ← hqk]
      exact List.mem_map_of_mem Prod.fst hqrest
    · rw [alSwapRemove_cons_neg k' v' rest k hk] at h
      cases heq : alSwapRemove rest k with
      | none =>
        rw [heq] at h
        exact absurd h (by simp)
      | some pr =>
        rw [heq] at h
        have h2 := Option.some.inj h
        injection h2 with h3 h4
        rw [← h4]
        simp only [alGet, if_neg hk]
        exact ih pr.2 hnd.2 (by rw [heq, ← h3])

theorem alGet_append_of_none {α : Type} (m m2 : List (SocketSpec × α))
    (k : SocketSpec) (h : alGet m k = none) :
    alGet (m ++ m2) k = alGet m2 k := by
  induction m with
  | nil => rfl
  | cons p rest ih =>
    obtain ⟨k', v'⟩ := p
    by_cases hk : k' = k
    · simp [alGet, hk] at h
    · simp only [alGet, if_neg hk] at h
      simpa [alGet, if_neg hk] using ih h

theorem alGet_alInsert_self {α : Type} (m : List (SocketSpec × α))
    (k : SocketSpec) (v : α) : alGet (alInsert m k v) k = some v := by
  unfold alInsert
  cases hg : alGet m k with
  | some w => simp [hg, alGet_alSet_self m k v w hg]
  | none =>
    rw [if_neg (by simp)]
    rw [alGet_append_of_none m _ k hg]
    simp [alGet]

/-! Concrete fixtures for the witness theorems. -/

/-- Remote options with `errors_till_dead = 1` and a tenth-of-a-second
configured probe delay. -/
def exOpts : TunnelRemoteOptions :=
  { errors_till_dead := 1, connect_timeout := 10, dead_retry := 1 / 10
    tls := false }

/-- Round-robin tunnel options over `exOpts`. -/
def exTunnelOptions : TunnelOptions :=
  { lb_strategy := .RoundRobin, remote_connect_retries := 3
    options := exOpts }

/-- Registry holding one freshly added tunnel with two live remotes. -/
def exState0 : State :=
  (State.new.add_tunnel "t" ["r1", "r2"] exTunnelOptions).toOption.getD
    State.new

/-- The same registry after one failed client attempt against remote r1:
with `errors_till_dead = 1` the remote is dead and a prober is spawned. -/
def exState1 : State := exState0.remote_error "t" "r1" exOpts

/-- The registry after that prober's first probe also failed. -/
def exState2 : State := exState1.probe_failed "t" "r1" 10 10

/-- C10: For every event-sink operation called with a local key that is not
present in the tunnels registry, the call returns normally and leaves the
entire registry state unchanged. -/
theorem event_sinks_ignore_missing_tunnel (st : State) (loc r : SocketSpec)
    (ro : Option SocketSpec) (opts : TunnelRemoteOptions) (sent : Bool)
    (bytes : Nat) (h : alGet st.tunnels loc = none) :
    st.client_connected loc = st ∧ st.remote_connected loc r = st ∧
    st.remote_error loc r opts = st ∧
    st.update_transferred loc r sent bytes = st ∧
    st.client_disconnected loc ro = st := by
  refine ⟨?_, ?_, ?_, ?_, ?_⟩ <;>
    simp [State.client_connected, State.remote_connected, State.remote_error,
      State.update_transferred, State.client_disconnected, h]

/-- Witness for C10 at the empty registry. -/
theorem event_sinks_ignore_missing_tunnel_witness :
    State.new.client_connected "t" = State.new ∧
    State.new.remote_connected "t" "r" = State.new ∧
    State.new.remote_error "t" "r" exOpts = State.new ∧
    State.new.update_transferred "t" "r" true 5 = State.new ∧
    State.new.client_disconnected "t" none = State.new :=
  event_sinks_ignore_missing_tunnel State.new "t" "r" none exOpts true 5 rfl

/-- Example per-direction copy state mid-transfer. -/
def exCopyBuf : CopyBuffer :=
  { read_done := false, need_flush := true, pos := 3, cap := 7, amt := 42
    bufLen := 8 }

/-- Example environment whose close signal has transitioned while reader and
writer are still usable. -/
def exCopyWorld : CopyWorld :=
  { finishReady := true, reads := [.bytes 4], writes := [.wrote 2]
    flushes := [.flushed] }

/-- C5: once the tunnel's close signal has transitioned to true, a poll of
the copy direction returns ready with Ok carrying the byte count transferred
so far in that direction, regardless of the buffer state and of what the
streams would do. -/
theorem poll_copy_close_signal_returns_ok (fuel : Nat) (b : CopyBuffer)
    (w : CopyWorld) (hf : 0 < fuel) (hw : w.finishReady = true) :
    CopyBuffer.poll_copy fuel b w = (.ready (.ok b.amt), b, w) := by
  cases fuel with
  | zero => exact absurd hf (by omega)
  | succ n => simp [CopyBuffer.poll_copy, hw]

/-- Witness for C5: a cancelled mid-transfer direction reports its 42 bytes
as success. -/
theorem poll_copy_close_signal_returns_ok_witness :
    CopyBuffer.poll_copy 5 exCopyBuf exCopyWorld =
      (.ready (.ok 42), exCopyBuf, exCopyWorld) :=
  poll_copy_close_signal_returns_ok 5 exCopyBuf exCopyWorld (by omega) rfl

/-- The full effect of `State::remote_error` in the case that the remote is
live and its bumped consecutive error count reaches the threshold. -/
theorem remote_error_dead_case (st : State) (loc remote : SocketSpec)
    (opts : TunnelRemoteOptions) (ti : TunnelInfo) (ri : RemoteInfo)
    (m2 : List (SocketSpec × RemoteInfo))
    (hti : alGet st.tunnels loc = some ti)
    (hri : alGet ti.remotes remote = some ri)
    (hdead : inc64 ri.num_errors ≥ opts.errors_till_dead)
    (hm2 : alSwapRemove (alSet ti.remotes remote ri.onError) remote =
      some (ri.onError, m2)) :
    st.remote_error loc remote opts =
      { st with
          tunnels := alSet st.tunnels loc
            { ti with
                stats := { ti.stats with errors := inc64 ti.stats.errors }
                remotes := m2
                dead_remotes := alInsert ti.dead_remotes remote
                  { remote := ri.onError, join_handle := some st.nextTask } }
          tasks := st.tasks ++
            [{ id := st.nextTask, loc := loc, remote := remote
               timeout := opts.connect_timeout, after := 10
               aborted := false }]
          nextTask := st.nextTask + 1 } := by
  have hcond : ri.onError.num_errors ≥ opts.errors_till_dead := by
    simpa [RemoteInfo.onError] using hdead
  simp only [State.remote_error, hti, hri, if_pos hcond, hm2,
    State.spawnCheckDead, State.setTunnel]

/-- C1: when a remote_error is recorded against a live remote and the
resulting consecutive error count reaches `options.errors_till_dead`, the
remote's entry is removed from the tunnel's remotes map and inserted into
its dead_remotes map wrapped in a `DeadRemote` holding the freshly spawned
prober handle; with `errors_till_dead = 1` this is triggered by a single
error (the witness shows it). -/
theorem remote_error_moves_remote_to_dead (st : State)
    (loc remote : SocketSpec) (opts : TunnelRemoteOptions) (ti : TunnelInfo)
    (ri : RemoteInfo) (hti : alGet st.tunnels loc = some ti)
    (hri : alGet ti.remotes remote = some ri)
    (hnd : (ti.remotes.map Prod.fst).Nodup)
    (hdead : inc64 ri.num_errors ≥ opts.errors_till_dead) :
    ∃ ti', alGet (st.remote_error loc remote opts).tunnels loc = some ti' ∧
      alGet ti'.remotes remote = none ∧
      alGet ti'.dead_remotes remote = some
        { remote := ri.onError, join_handle := some st.nextTask } ∧
      (st.remote_error loc remote opts).tasks = st.tasks ++
        [{ id := st.nextTask, loc := loc, remote := remote
           timeout := opts.connect_timeout, after := 10
           aborted := false }] := by
  have hset := alGet_alSet_self ti.remotes remote ri.onError ri hri
  obtain ⟨m2, hm2, _⟩ := alSwapRemove_of_alGet _ _ _ hset
  have hnd2 : ((alSet ti.remotes remote ri.onError).map Prod.fst).Nodup := by
    rw [alSet_keys]; exact hnd
  have hnone := alGet_alSwapRemove_self _ _ _ _ hnd2 hm2
  rw [remote_error_dead_case st loc remote opts ti ri m2 hti hri hdead hm2]
  refine ⟨_, alGet_alSet_self st.tunnels loc _ ti hti, hnone,
    alGet_alInsert_self _ _ _, rfl⟩

/-- C3 (the code bug): the probe delay that `remote_error` hands to
`check_dead` is the hard-coded ten seconds, not the tunnel's configured
`dead_retry`; rescheduled probes re-use whatever delay the task was spawned
with, so no probe ever sleeps the configured tenth of a second. -/
theorem dead_probe_delay_hardcoded (st : State) (loc remote : SocketSpec)
    (opts : TunnelRemoteOptions) (ti : TunnelInfo) (ri : RemoteInfo)
    (hti : alGet st.tunnels loc = some ti)
    (hri : alGet ti.remotes remote = some ri)
    (hdead : inc64 ri.num_errors ≥ opts.errors_till_dead)
    (hdr : opts.dead_retry = 1 / 10) :
    (st.remote_error loc remote opts).tasks = st.tasks ++
      [{ id := st.nextTask, loc := loc, remote := remote
         timeout := opts.connect_timeout, after := 10, aborted := false }] ∧
    (st.remote_error loc remote opts).tasks ≠ st.tasks ++
      [{ id := st.nextTask, loc := loc, remote := remote
         timeout := opts.connect_timeout, after := opts.dead_retry
         aborted := false }] ∧
    (∀ st2 : State, ∀ l2 r2 : SocketSpec, ∀ ti2 : TunnelInfo,
      ∀ d2 : DeadRemote, ∀ t a : Rat, alGet st2.tunnels l2 = some ti2 →
      alGet ti2.dead_remotes r2 = some d2 →
      (st2.probe_failed l2 r2 t a).tasks = st2.tasks ++
        [{ id := st2.nextTask, loc := l2, remote := r2, timeout := t
           after := a, aborted := false }]) := by
  have hset := alGet_alSet_self ti.remotes remote ri.onError ri hri
  obtain ⟨m2, hm2, _⟩ := alSwapRemove_of_alGet _ _ _ hset
  rw [remote_error_dead_case st loc remote opts ti ri m2 hti hri hdead hm2]
  refine ⟨rfl, ?_, ?_⟩
  · intro hcontra
    rw [hdr] at hcontra
    have htasks : st.tasks ++
        [{ id := st.nextTask, loc := loc, remote := remote
           timeout := opts.connect_timeout, after := 10
           aborted := false }] = st.tasks ++
        [{ id := st.nextTask, loc := loc, remote := remote
           timeout := opts.connect_timeout, after := 1 / 10
           aborted := false }] := hcontra
    have hone := List.append_cancel_left htasks
    have htask := (List.cons.injEq _ _ _ _).mp hone
    have haft := congrArg ProbeTask.after htask.1
    norm_num [ProbeTask.after] at haft
  · intro st2 l2 r2 ti2 d2 t a hti2 hd2
    simp only [State.probe_failed, hti2, hd2, State.spawnCheckDead,
      State.setTunnel]

/-- Witness for C1: with `errors_till_dead = 1`, the single failure recorded
in `exState1` moves the fresh remote r1 to `dead_remotes`. -/
theorem remote_error_moves_remote_to_dead_witness :
    ∃ ti', alGet (exState0.remote_error "t" "r1" exOpts).tunnels "t" =
        some ti' ∧
      alGet ti'.remotes "r1" = none ∧
      alGet ti'.dead_remotes "r1" = some
        { remote := RemoteInfo.default.onError
          join_handle := some exState0.nextTask } ∧
      (exState0.remote_error "t" "r1" exOpts).tasks = exState0.tasks ++
        [{ id := exState0.nextTask, loc := "t", remote := "r1"
           timeout := exOpts.connect_timeout, after := 10
           aborted := false }] :=
  remote_error_moves_remote_to_dead exState0 "t" "r1" exOpts
    (TunnelInfo.new ["r1", "r2"] exTunnelOptions) RemoteInfo.default
    rfl rfl (by decide) (by decide)

/-- Witness for C3: with the configured `dead_retry` of a tenth of a second,
the spawned probe task still sleeps the hard-coded ten seconds. -/
theorem dead_probe_delay_hardcoded_witness :
    (exState0.remote_error "t" "r1" exOpts).tasks = exState0.tasks ++
      [{ id := exState0.nextTask, loc := "t", remote := "r1"
         timeout := exOpts.connect_timeout, after := 10
         aborted := false }] ∧
    (exState0.remote_error "t" "r1" exOpts).tasks ≠ exState0.tasks ++
      [{ id := exState0.nextTask, loc := "t", remote := "r1"
         timeout := exOpts.connect_timeout, after := exOpts.dead_retry
         aborted := false }] ∧
    (∀ st2 : State, ∀ l2 r2 : SocketSpec, ∀ ti2 : TunnelInfo,
      ∀ d2 : DeadRemote, ∀ t a : Rat, alGet st2.tunnels l2 = some ti2 →
      alGet ti2.dead_remotes r2 = some d2 →
      (st2.probe_failed l2 r2 t a).tasks = st2.tasks ++
        [{ id := st2.nextTask, loc := l2, remote := r2, timeout := t
           after := a, aborted := false }]) :=
  dead_probe_delay_hardcoded exState0 "t" "r1" exOpts
    (TunnelInfo.new ["r1", "r2"] exTunnelOptions) RemoteInfo.default
    rfl rfl (by decide) rfl

theorem alSwapRemove_eq_none_of_alGet {α : Type} (m : List (SocketSpec × α))
    (k : SocketSpec) (h : alGet m k = none) : alSwapRemove m k = none := by
  induction m with
  | nil => rfl
  | cons p rest ih =>
    obtain ⟨k', v'⟩ := p
    by_cases hk : k' = k
    · simp [alGet, hk] at h
    · simp only [alGet, if_neg hk] at h
      rw [alSwapRemove_cons_neg k' v' rest k hk, ih h]
      rfl

/-- C4 counterexample: removing the dead remote r1 succeeds and returns its
record, but the prober task (id 0) spawned for it is left unaborted in the
task table — the handle is dropped, which detaches rather than aborts. -/
theorem remove_remote_does_not_abort_prober_cex :
    (exState1.remove_remote_from_tunnel "t" "r1").map
        (fun p => p.2.tasks.map (fun tk => (tk.id, tk.aborted))) =
      .ok [(0, false)] ∧
    exState1.tasks.map (fun tk => (tk.id, tk.aborted)) = [(0, false)] ∧
    (alGet exState1.tunnels "t").map (fun ti => ti.dead_remotes.map Prod.fst) =
      some ["r1"] := by
  refine ⟨?_, ?_, ?_⟩ <;> decide

/-- C4 as amended: `remove_remote_from_tunnel` removes the entry from
`remotes`, or else from `dead_remotes` while dropping (not aborting) the
dead remote's prober handle, and returns its `RemoteInfo`; it fails with
`RemoteDoesNotExist` exactly when the remote is in neither map, and the
task table is never touched. -/
theorem remove_remote_from_tunnel_spec (st : State) (loc remote : SocketSpec)
    (ti : TunnelInfo) (hti : alGet st.tunnels loc = some ti) :
    (∀ ri0, alGet ti.remotes remote = some ri0 →
      (ti.remotes.map Prod.fst).Nodup →
      ∃ st', st.remove_remote_from_tunnel loc remote = .ok (ri0, st') ∧
        st'.tasks = st.tasks ∧
        ∃ ti', alGet st'.tunnels loc = some ti' ∧
          alGet ti'.remotes remote = none ∧
          ti'.dead_remotes = ti.dead_remotes) ∧
    (∀ d, alGet ti.remotes remote = none →
      alGet ti.dead_remotes remote = some d →
      (ti.dead_remotes.map Prod.fst).Nodup →
      ∃ st', st.remove_remote_from_tunnel loc remote = .ok (d.remote, st') ∧
        st'.tasks = st.tasks ∧
        ∃ ti', alGet st'.tunnels loc = some ti' ∧
          alGet ti'.dead_remotes remote = none ∧
          ti'.remotes = ti.remotes) ∧
    (alGet ti.remotes remote = none → alGet ti.dead_remotes remote = none →
      st.remove_remote_from_tunnel loc remote = .error .RemoteDoesNotExist) := by
  refine ⟨?_, ?_, ?_⟩
  · intro ri0 hri hnd
    obtain ⟨m', hm', _⟩ := alSwapRemove_of_alGet _ _ _ hri
    have hres : st.remove_remote_from_tunnel loc remote =
        .ok (ri0, st.setTunnel loc { ti with remotes := m' }) := by
      simp only [State.remove_remote_from_tunnel, hti, hm']
    refine ⟨st.setTunnel loc { ti with remotes := m' }, hres, rfl, ?_⟩
    exact ⟨_, alGet_alSet_self st.tunnels loc _ ti hti,
      alGet_alSwapRemove_self _ _ _ _ hnd hm', rfl⟩
  · intro d hrn hd hnd
    have hswn := alSwapRemove_eq_none_of_alGet _ _ hrn
    obtain ⟨m', hm', _⟩ := alSwapRemove_of_alGet _ _ _ hd
    have hres : st.remove_remote_from_tunnel loc remote =
        .ok (d.remote, st.setTunnel loc { ti with dead_remotes := m' }) := by
      simp only [State.remove_remote_from_tunnel, hti, hswn, hm']
    refine ⟨st.setTunnel loc { ti with dead_remotes := m' }, hres, rfl, ?_⟩
    exact ⟨_, alGet_alSet_self st.tunnels loc _ ti hti,
      alGet_alSwapRemove_self _ _ _ _ hnd hm', rfl⟩
  · intro hrn hdn
    have hswn := alSwapRemove_eq_none_of_alGet _ _ hrn
    have hswd := alSwapRemove_eq_none_of_alGet _ _ hdn
    simp only [State.remove_remote_from_tunnel, hti, hswn, hswd]

/-- The tunnel entry of the fixture `exState1`. -/
def exTi1 : TunnelInfo :=
  (alGet exState1.tunnels "t").getD (TunnelInfo.new [] exTunnelOptions)

/-- The dead-remote entry of the fixture `exState1`. -/
def exDead1 : DeadRemote :=
  (alGet exTi1.dead_remotes "r1").getD
    { remote := RemoteInfo.default, join_handle := none }

/-- Witness for C4's amended claim: removing the dead remote r1 from the
fixture returns its record and leaves the task table untouched. -/
theorem remove_remote_from_tunnel_spec_witness :
    ∃ st', exState1.remove_remote_from_tunnel "t" "r1" =
        .ok (exDead1.remote, st') ∧
      st'.tasks = exState1.tasks ∧
      ∃ ti', alGet st'.tunnels "t" = some ti' ∧
        alGet ti'.dead_remotes "r1" = none ∧
        ti'.remotes = exTi1.remotes :=
  ((remove_remote_from_tunnel_spec exState1 "t" "r1" exTi1 rfl).2.1)
    exDead1 rfl rfl (by decide)

/-- Sum of the error totals recorded on a tunnel's remotes, live and dead. -/
def errorSum (ti : TunnelInfo) : Nat :=
  (ti.remotes.map (fun p => p.2.total_errors)).sum +
    (ti.dead_remotes.map (fun p => p.2.remote.total_errors)).sum

/-- C7 counterexample: in the reachable fixture `exState2` (one
`remote_error` that killed the remote, then one failed probe) the tunnel's
`stats.errors` is 1 while the error totals of its remotes sum to 2 — a
failing probe bumps the dead remote's counters without touching the
tunnel-level aggregate. -/
theorem tunnel_errors_not_sum_after_probe_cex :
    (alGet exState2.tunnels "t").map
        (fun ti => (ti.stats.errors, errorSum ti)) = some (1, 2) ∧
    (1 : Nat) ≠ 2 := by
  refine ⟨by decide, by decide⟩

/-- C7 as amended: the tunnel-level `stats.errors` aggregate is incremented
by every `remote_error` on an existing tunnel (whether or not the remote is
live), but a failing dead-remote probe leaves it unchanged, so it counts
`remote_error` events rather than the sum of per-remote error counters. -/
theorem tunnel_errors_incremented_only_by_remote_error (st : State)
    (loc remote : SocketSpec) (opts : TunnelRemoteOptions) (ti : TunnelInfo)
    (hti : alGet st.tunnels loc = some ti) :
    (∃ ti', alGet (st.remote_error loc remote opts).tunnels loc = some ti' ∧
      ti'.stats.errors = inc64 ti.stats.errors) ∧
    (∀ t a : Rat, ∃ ti2,
      alGet (st.probe_failed loc remote t a).tunnels loc = some ti2 ∧
      ti2.stats.errors = ti.stats.errors) := by
  constructor
  · cases hri : alGet ti.remotes remote with
    | none =>
      refine ⟨{ ti with stats :=
        { ti.stats with errors := inc64 ti.stats.errors } }, ?_, rfl⟩
      have hres : st.remote_error loc remote opts = st.setTunnel loc
          { ti with stats :=
            { ti.stats with errors := inc64 ti.stats.errors } } := by
        simp only [State.remote_error, hti, hri]
      rw [hres]
      exact alGet_alSet_self st.tunnels loc _ ti hti
    | some ri =>
      by_cases hc : ri.onError.num_errors ≥ opts.errors_till_dead
      · obtain ⟨m2, hm2, _⟩ := alSwapRemove_of_alGet _ _ _
          (alGet_alSet_self ti.remotes remote ri.onError ri hri)
        refine ⟨{ ti with
            stats := { ti.stats with errors := inc64 ti.stats.errors }
            remotes := m2
            dead_remotes := alInsert ti.dead_remotes remote
              { remote := ri.onError
                join_handle := some st.nextTask } }, ?_, rfl⟩
        have hres := remote_error_dead_case st loc remote opts ti ri m2 hti
          hri (by simpa [RemoteInfo.onError] using hc) hm2
        rw [hres]
        exact alGet_alSet_self st.tunnels loc _ ti hti
      · refine ⟨{ ti with
            stats := { ti.stats with errors := inc64 ti.stats.errors }
            remotes := alSet ti.remotes remote ri.onError }, ?_, rfl⟩
        have hres : st.remote_error loc remote opts = st.setTunnel loc
            { ti with
                stats := { ti.stats with errors := inc64 ti.stats.errors }
                remotes := alSet ti.remotes remote ri.onError } := by
          simp only [State.remote_error, hti, hri, if_neg hc]
        rw [hres]
        exact alGet_alSet_self st.tunnels loc _ ti hti
  · intro t a
    cases hd : alGet ti.dead_remotes remote with
    | none =>
      refine ⟨ti, ?_, rfl⟩
      simp only [State.probe_failed, hti, hd]
    | some d =>
      refine ⟨{ ti with dead_remotes := alSet ti.dead_remotes remote ⟨d.remote.onProbeError, some st.nextTask⟩ }, ?_, rfl⟩
      have hres : st.probe_failed loc remote t a =
          ({ st with
              tasks := st.tasks ++
                [{ id := st.nextTask, loc := loc, remote := remote
                   timeout := t, after := a, aborted := false }]
              nextTask := st.nextTask + 1 } : State).setTunnel loc
            { ti with dead_remotes := alSet ti.dead_remotes remote ⟨d.remote.onProbeError, some st.nextTask⟩ } := by
        simp only [State.probe_failed, hti, hd, State.spawnCheckDead]
      rw [hres]
      exact alGet_alSet_self _ loc _ ti hti

/-- Witness for C7's amended claim at the fixture with a dead remote. -/
theorem tunnel_errors_incremented_only_by_remote_error_witness :
    (∃ ti', alGet (exState1.remote_error "t" "r1" exOpts).tunnels "t" =
        some ti' ∧ ti'.stats.errors = inc64 exTi1.stats.errors) ∧
    (∃ ti2, alGet (exState1.probe_failed "t" "r1" 10 10).tunnels "t" =
        some ti2 ∧ ti2.stats.errors = exTi1.stats.errors) :=
  ⟨(tunnel_errors_incremented_only_by_remote_error exState1 "t" "r1" exOpts
      exTi1 rfl).1,
   (tunnel_errors_incremented_only_by_remote_error exState1 "t" "r1" exOpts
      exTi1 rfl).2 10 10⟩

theorem getD_mem_of_lt (l : List Nat) (i : Nat) (h : i < l.length) :
    l.getD i 0 ∈ l := by
  induction l generalizing i with
  | nil => simp at h
  | cons a rest ih =>
    cases i with
    | zero => simp
    | succ j =>
      simp only [List.getD_cons_succ]
      exact List.mem_cons_of_mem _ (ih j (by simpa using h))

/-- Outcome analysis of the `MinimumOpenConnections` scan loop: either no
element beats the incoming accumulator (the result is `minIdx` and every
load is at least `minVal`), or the result is the absolute position of the
first smallest load of the remainder, which beats `minVal`. -/
theorem minOpenGo_spec (rest : List Nat) :
    ∀ idx minIdx minVal : Nat, 0 < minVal →
    (minOpenGo idx minIdx minVal rest = minIdx ∧
      ∀ j, j < rest.length → minVal ≤ rest.getD j 0) ∨
    (∃ j, j < rest.length ∧ minOpenGo idx minIdx minVal rest = idx + j ∧
      rest.getD j 0 < minVal ∧
      (∀ i, i < rest.length → rest.getD j 0 ≤ rest.getD i 0) ∧
      (∀ k, k < j → rest.getD j 0 < rest.getD k 0)) := by
  induction rest with
  | nil =>
    intro idx minIdx minVal h0
    left
    exact ⟨rfl, fun j hj => by simp at hj⟩
  | cons l rest ih =>
    intro idx minIdx minVal h0
    by_cases hz : l = 0
    · right
      refine ⟨0, by simp, by simp [minOpenGo, hz], by simpa [hz] using h0,
        ?_, fun k hk => by omega⟩
      intro i _
      simp [hz]
    · by_cases hlt : l < minVal
      · rcases ih (idx + 1) idx l (by omega) with ⟨heq, hall⟩ |
          ⟨j, hj, heq, hjv, hmin, hpre⟩
        · right
          refine ⟨0, by simp, ?_, by simpa using hlt, ?_, fun k hk => by omega⟩
          · simp [minOpenGo, hz, hlt, heq]
          · intro i hi
            cases i with
            | zero => simp
            | succ i2 =>
              simp only [List.getD_cons_zero, List.getD_cons_succ]
              exact hall i2 (by simpa using hi)
        · right
          refine ⟨j + 1, by simpa using hj, ?_, ?_, ?_, ?_⟩
          · simp only [minOpenGo, if_neg hz, if_pos hlt]
            omega
          · simp only [List.getD_cons_succ]
            omega
          · intro i hi
            cases i with
            | zero =>
              simp only [List.getD_cons_succ, List.getD_cons_zero]
              omega
            | succ i2 =>
              simp only [List.getD_cons_succ]
              exact hmin i2 (by simpa using hi)
          · intro k hk
            cases k with
            | zero =>
              simp only [List.getD_cons_succ, List.getD_cons_zero]
              omega
            | succ k2 =>
              simp only [List.getD_cons_succ]
              exact hpre k2 (by omega)
      · rcases ih (idx + 1) minIdx minVal h0 with ⟨heq, hall⟩ |
          ⟨j, hj, heq, hjv, hmin, hpre⟩
        · left
          refine ⟨by simp [minOpenGo, hz, hlt, heq], ?_⟩
          intro j hj
          cases j with
          | zero => simpa using (by omega : minVal ≤ l)
          | succ j2 =>
            simp only [List.getD_cons_succ]
            exact hall j2 (by simpa using hj)
        · right
          refine ⟨j + 1, by simpa using hj, ?_, ?_, ?_, ?_⟩
          · simp only [minOpenGo, if_neg hz, if_neg hlt]
            omega
          · simp only [List.getD_cons_succ]
            omega
          · intro i hi
            cases i with
            | zero =>
              simp only [List.getD_cons_succ, List.getD_cons_zero]
              omega
            | succ i2 =>
              simp only [List.getD_cons_succ]
              exact hmin i2 (by simpa using hi)
          · intro k hk
            cases k with
            | zero =>
              simp only [List.getD_cons_succ, List.getD_cons_zero]
              omega
            | succ k2 =>
              simp only [List.getD_cons_succ]
              exact hpre k2 (by omega)

/-- C6: on a tunnel with live remotes, the MinimumOpenConnections strategy
returns an in-range index whose load `streams_open + streams_pending` is
minimal over the map, and every earlier index carries a strictly larger
load (ties break to the first occurrence; the zero-load early exit is a
special case of picking the first minimum). -/
theorem minimum_open_connections_minimizes (ti : TunnelInfo)
    (hne : ti.remotes ≠ []) :
    MinimumOpenConnections.select_remote ti < ti.remotes.length ∧
    (∀ i, i < ti.remotes.length →
      (ti.remotes.map (fun p => remoteLoad p.2)).getD
          (MinimumOpenConnections.select_remote ti) 0 ≤
        (ti.remotes.map (fun p => remoteLoad p.2)).getD i 0) ∧
    (∀ k, k < MinimumOpenConnections.select_remote ti →
      (ti.remotes.map (fun p => remoteLoad p.2)).getD
          (MinimumOpenConnections.select_remote ti) 0 <
        (ti.remotes.map (fun p => remoteLoad p.2)).getD k 0) := by
  have hlen : (ti.remotes.map (fun p => remoteLoad p.2)).length =
      ti.remotes.length := List.length_map _ _
  have hpos : 0 < ti.remotes.length := List.length_pos.mpr hne
  have hbound : ∀ x ∈ ti.remotes.map (fun p => remoteLoad p.2),
      x ≤ U64MOD - 1 := by
    intro x hx
    obtain ⟨p, _, rfl⟩ := List.mem_map.mp hx
    have : remoteLoad p.2 < U64MOD :=
      Nat.mod_lt _ (by norm_num [U64MOD])
    omega
  have hsel : MinimumOpenConnections.select_remote ti =
      minOpenGo 0 0 (U64MOD - 1) (ti.remotes.map (fun p => remoteLoad p.2)) :=
    rfl
  rcases minOpenGo_spec (ti.remotes.map (fun p => remoteLoad p.2)) 0 0
      (U64MOD - 1) (by norm_num [U64MOD]) with ⟨heq, hall⟩ |
    ⟨j, hj, heq, hjv, hmin, hpre⟩
  · have hallEq : ∀ i, i < ti.remotes.length →
        (ti.remotes.map (fun p => remoteLoad p.2)).getD i 0 = U64MOD - 1 := by
      intro i hi
      have h1 := hall i (by omega)
      have h2 := hbound _ (getD_mem_of_lt _ i (by omega))
      omega
    refine ⟨?_, ?_, ?_⟩
    · rw [hsel, heq]; exact hpos
    · intro i hi
      rw [hsel, heq, hallEq 0 hpos, hallEq i hi]
    · intro k hk
      rw [hsel, heq] at hk
      omega
  · refine ⟨?_, ?_, ?_⟩
    · rw [hsel, heq]; omega
    · intro i hi
      rw [hsel, heq]
      simpa using hmin i (by omega)
    · intro k hk
      rw [hsel, heq] at hk
      rw [hsel, heq]
      simpa using hpre k (by omega)

/-- Tunnel fixture for the MinimumOpenConnections witness: loads 3, 2, 2. -/
def exTiMin : TunnelInfo :=
  { TunnelInfo.new ["a", "b", "c"] exTunnelOptions with
      lb_strategy := .MinimumOpenConnections
      remotes :=
        [("a", { RemoteInfo.default with streams_open := 3 }),
         ("b", { RemoteInfo.default with streams_open := 2 }),
         ("c", { RemoteInfo.default with streams_open := 2 })] }

/-- Witness for C6 at loads 3, 2, 2: the selected index is in range,
minimal, and every earlier index has a strictly larger load. -/
theorem minimum_open_connections_minimizes_witness :
    MinimumOpenConnections.select_remote exTiMin < exTiMin.remotes.length ∧
    (∀ i, i < exTiMin.remotes.length →
      (exTiMin.remotes.map (fun p => remoteLoad p.2)).getD
          (MinimumOpenConnections.select_remote exTiMin) 0 ≤
        (exTiMin.remotes.map (fun p => remoteLoad p.2)).getD i 0) ∧
    (∀ k, k < MinimumOpenConnections.select_remote exTiMin →
      (exTiMin.remotes.map (fun p => remoteLoad p.2)).getD
          (MinimumOpenConnections.select_remote exTiMin) 0 <
        (exTiMin.remotes.map (fun p => remoteLoad p.2)).getD k 0) :=
  minimum_open_connections_minimizes exTiMin (by decide)

/-- Bound for every strategy's selection on a non-empty map. -/
theorem strategySelect_lt (ti : TunnelInfo) (rnd : Nat)
    (h : ti.remotes ≠ []) : strategySelect ti rnd < ti.remotes.length := by
  have hpos : 0 < ti.remotes.length := List.length_pos.mpr h
  cases hs : ti.lb_strategy with
  | Random =>
    simp only [strategySelect, hs, Random.select_remote]
    exact Nat.mod_lt _ hpos
  | RoundRobin =>
    simp only [strategySelect, hs, RoundRobin.select_remote]
    exact Nat.mod_lt _ hpos
  | MinimumOpenConnections =>
    simp only [strategySelect, hs, MinimumOpenConnections.select_remote]
    have hlen : (ti.remotes.map (fun p => remoteLoad p.2)).length =
        ti.remotes.length := List.length_map _ _
    rcases minOpenGo_spec (ti.remotes.map (fun p => remoteLoad p.2)) 0 0
        (U64MOD - 1) (by norm_num [U64MOD]) with ⟨heq, _⟩ |
      ⟨j, hj, heq, _⟩
    · rw [heq]; exact hpos
    · rw [heq]; omega

/-- C9: `TunnelInfo::select_remote` fails with `NoRemote` exactly on an
empty remotes map; on a non-empty map it returns a key present in the map,
for every strategy, every random draw and every recorded
`last_selected_index`, stale values included. -/
theorem select_remote_total (ti : TunnelInfo) (rnd : Nat) :
    (ti.remotes = [] → ti.select_remote rnd = .error .NoRemote) ∧
    (ti.remotes ≠ [] → ∃ p ti2, ti.select_remote rnd = .ok (p, ti2) ∧
      p ∈ ti.remotes.map Prod.fst) := by
  constructor
  · intro h
    simp [TunnelInfo.select_remote, h]
  · intro h
    have hpos : 0 < ti.remotes.length := List.length_pos.mpr h
    have hidx : (if ti.remotes.length = 1 then 0
        else strategySelect ti rnd) < ti.remotes.length := by
      by_cases h1 : ti.remotes.length = 1
      · simp [h1]
      · simpa [h1] using strategySelect_lt ti rnd h
    have hget := List.get?_eq_get (l := ti.remotes)
      (n := if ti.remotes.length = 1 then 0 else strategySelect ti rnd) hidx
    refine ⟨(ti.remotes.get ⟨_, hidx⟩).1,
      { ti with last_selected_index := some (if ti.remotes.length = 1 then 0 else strategySelect ti rnd) },
      ?_, List.mem_map_of_mem Prod.fst (List.get_mem _ _ _)⟩
    simp only [TunnelInfo.select_remote]
    rw [if_neg (by omega : ¬ ti.remotes.length = 0)]
    simp only [hget]

/-- One round-robin selection step: from a recorded index `l < N` the next
selection succeeds and records `(l + 1) % N`. -/
theorem rr_step (ti : TunnelInfo) (N : Nat) (rnd : Nat)
    (hstrat : ti.lb_strategy = .RoundRobin) (hN : ti.remotes.length = N)
    (hpos : 1 ≤ N) (hlt : N < U64MOD) (l : Nat)
    (hlast : ti.last_selected_index = some l) (hl : l < N) :
    ∃ p, ti.select_remote rnd =
      .ok (p, { ti with last_selected_index := some ((l + 1) % N) }) := by
  have hidx : (if ti.remotes.length = 1 then 0
      else strategySelect ti rnd) = (l + 1) % N := by
    by_cases h1 : ti.remotes.length = 1
    · rw [if_pos h1]
      have hN1 : N = 1 := by omega
      rw [hN1, Nat.mod_one]
    · rw [if_neg h1]
      simp only [strategySelect, hstrat, RoundRobin.select_remote, hlast,
        Option.getD_some, hN]
      rw [Nat.mod_eq_of_lt (a := l + 1) (by omega)]
  have hm : (l + 1) % N < ti.remotes.length := by
    rw [hN]; exact Nat.mod_lt _ (by omega)
  have hget := List.get?_eq_get (l := ti.remotes) (n := (l + 1) % N) hm
  refine ⟨(ti.remotes.get ⟨(l + 1) % N, hm⟩).1, ?_⟩
  simp only [TunnelInfo.select_remote]
  rw [if_neg (by omega : ¬ ti.remotes.length = 0), hidx]
  simp only [hget]

/-- The first round-robin selection with no recorded index returns and
records index 0. -/
theorem rr_first (ti : TunnelInfo) (N : Nat) (rnd : Nat)
    (hstrat : ti.lb_strategy = .RoundRobin) (hN : ti.remotes.length = N)
    (hpos : 1 ≤ N) (hlt : N < U64MOD)
    (hnone : ti.last_selected_index = none) :
    ∃ p, ti.select_remote rnd =
      .ok (p, { ti with last_selected_index := some 0 }) := by
  have hidx : (if ti.remotes.length = 1 then 0
      else strategySelect ti rnd) = 0 := by
    by_cases h1 : ti.remotes.length = 1
    · rw [if_pos h1]
    · rw [if_neg h1]
      simp only [strategySelect, hstrat, RoundRobin.select_remote, hnone,
        Option.getD_none, hN]
      rw [Nat.sub_add_cancel hpos, Nat.mod_eq_of_lt hlt, Nat.mod_self]
  have hm : 0 < ti.remotes.length := by omega
  have hget := List.get?_eq_get (l := ti.remotes) (n := 0) hm
  refine ⟨(ti.remotes.get ⟨0, hm⟩).1, ?_⟩
  simp only [TunnelInfo.select_remote]
  rw [if_neg (by omega : ¬ ti.remotes.length = 0), hidx]
  simp only [hget]

/-- Closed form of the recorded-index trace of consecutive round-robin
selections: starting after index `l`, the k-th selection records
`(l + 1 + k) % N`. -/
theorem rr_trace (k : Nat) : ∀ (ti : TunnelInfo) (N l : Nat),
    ti.lb_strategy = .RoundRobin → ti.remotes.length = N → 1 ≤ N →
    N < U64MOD → ti.last_selected_index = some l → l < N →
    selectIdxTrace k ti = (List.range k).map (fun j => (l + 1 + j) % N) := by
  induction k with
  | zero => intro ti N l _ _ _ _ _ _; rfl
  | succ n ih =>
    intro ti N l hstrat hN hpos hlt hlast hl
    obtain ⟨p, hstep⟩ := rr_step ti N 0 hstrat hN hpos hlt l hlast hl
    simp only [selectIdxTrace, hstep, Option.getD_some]
    have hm : (l + 1) % N < N := Nat.mod_lt _ (by omega)
    rw [ih { ti with last_selected_index := some ((l + 1) % N) } N
      ((l + 1) % N) hstrat hN hpos hlt rfl hm]
    rw [List.range_succ_eq_map, List.map_cons, List.map_map]
    refine List.cons_eq_cons.mpr ⟨by simp, ?_⟩
    refine List.map_congr_left ?_
    intro j _
    show ((l + 1) % N + 1 + j) % N = (l + 1 + (j + 1)) % N
    rw [Nat.add_assoc, Nat.mod_add_mod]
    congr 1
    omega

/-- A window of `N` successive values of a modular progression hits every
residue below `N` exactly once. -/
theorem cycle_complete (s N : Nat) (hpos : 1 ≤ N) :
    ((List.range N).map (fun j => (s + j) % N)).length = N ∧
    ((List.range N).map (fun j => (s + j) % N)).Nodup ∧
    ((List.range N).map (fun j => (s + j) % N)).toFinset = Finset.range N := by
  have hinj : ∀ x ∈ List.range N, ∀ y ∈ List.range N,
      (s + x) % N = (s + y) % N → x = y := by
    intro x hx y hy hxy
    have hx2 : x < N := List.mem_range.mp hx
    have hy2 : y < N := List.mem_range.mp hy
    have hmod : x ≡ y [MOD N] := Nat.ModEq.add_left_cancel' s hxy
    have := hmod
    unfold Nat.ModEq at this
    rwa [Nat.mod_eq_of_lt hx2, Nat.mod_eq_of_lt hy2] at this
  have hnd : ((List.range N).map (fun j => (s + j) % N)).Nodup :=
    List.Nodup.map_on hinj (List.nodup_range N)
  refine ⟨by simp, hnd, ?_⟩
  have hsub : ((List.range N).map (fun j => (s + j) % N)).toFinset ⊆
      Finset.range N := by
    intro x hx
    obtain ⟨j, _, rfl⟩ := List.mem_map.mp (List.mem_toFinset.mp hx)
    exact Finset.mem_range.mpr (Nat.mod_lt _ (by omega))
  refine (Finset.eq_of_subset_of_card_le hsub ?_).symm.symm
  rw [List.toFinset_card_of_nodup hnd]
  simp

/-- C2: on a round-robin tunnel with `N` live remotes and an in-range (or
absent) recorded index, each selection returns `(last + 1) mod N` — index 0
on the first selection — and `N` consecutive selections produce `N`
pairwise-distinct indices covering exactly `0..N-1`. -/
theorem roundRobin_selects_cyclically (ti : TunnelInfo) (N : Nat)
    (hstrat : ti.lb_strategy = .RoundRobin) (hN : ti.remotes.length = N)
    (hpos : 1 ≤ N) (hlt : N < U64MOD)
    (hlast : ∀ l, ti.last_selected_index = some l → l < N) :
    (∀ l, ti.last_selected_index = some l →
      ∃ p, ti.select_remote 0 =
        .ok (p, { ti with last_selected_index := some ((l + 1) % N) })) ∧
    (ti.last_selected_index = none →
      ∃ p, ti.select_remote 0 =
        .ok (p, { ti with last_selected_index := some 0 })) ∧
    (selectIdxTrace N ti).length = N ∧
    (selectIdxTrace N ti).Nodup ∧
    (selectIdxTrace N ti).toFinset = Finset.range N := by
  refine ⟨fun l hl => rr_step ti N 0 hstrat hN hpos hlt l hl (hlast l hl),
    fun hn => rr_first ti N 0 hstrat hN hpos hlt hn, ?_⟩
  cases hcase : ti.last_selected_index with
  | some l =>
    rw [rr_trace N ti N l hstrat hN hpos hlt hcase (hlast l hcase)]
    exact cycle_complete (l + 1) N hpos
  | none =>
    obtain ⟨M, rfl⟩ : ∃ M, N = M + 1 := ⟨N - 1, by omega⟩
    obtain ⟨p, hstep⟩ := rr_first ti (M + 1) 0 hstrat hN hpos hlt hcase
    have htr : selectIdxTrace (M + 1) ti =
        (List.range (M + 1)).map (fun j => (0 + j) % (M + 1)) := by
      simp only [selectIdxTrace, hstep, Option.getD_some]
      rw [rr_trace M { ti with last_selected_index := some 0 } (M + 1) 0
        hstrat hN hpos hlt rfl (by omega)]
      rw [List.range_succ_eq_map, List.map_cons, List.map_map]
      refine List.cons_eq_cons.mpr ⟨by simp, ?_⟩
      refine List.map_congr_left ?_
      intro j _
      show (0 + 1 + j) % (M + 1) = (0 + (j + 1)) % (M + 1)
      congr 1
      omega
    rw [htr]
    exact cycle_complete 0 (M + 1) hpos

/-- Round-robin tunnel fixture with three live remotes and a recorded
index. -/
def exTiRR : TunnelInfo :=
  { TunnelInfo.new ["a", "b", "c"] exTunnelOptions with
      last_selected_index := some 0 }

/-- Witness for C2 on the three-remote round-robin fixture. -/
theorem roundRobin_selects_cyclically_witness :
    (∀ l, exTiRR.last_selected_index = some l →
      ∃ p, exTiRR.select_remote 0 =
        .ok (p, { exTiRR with last_selected_index := some ((l + 1) % 3) })) ∧
    (exTiRR.last_selected_index = none →
      ∃ p, exTiRR.select_remote 0 =
        .ok (p, { exTiRR with last_selected_index := some 0 })) ∧
    (selectIdxTrace 3 exTiRR).length = 3 ∧
    (selectIdxTrace 3 exTiRR).Nodup ∧
    (selectIdxTrace 3 exTiRR).toFinset = Finset.range 3 :=
  roundRobin_selects_cyclically exTiRR 3 rfl rfl (by omega)
    (by norm_num [U64MOD])
    (by intro l h; simp only [exTiRR] at h; injection h with h2; omega)

/-- C8 counterexample: tunnel specs whose bracketed options use the
spec-documented names `errors`, `check-interval` and `remote-tls` with valid
values fail to parse, while the three implemented names parse fine. -/
theorem tunnel_grammar_rejects_spec_names_cex :
    (tunnelP "3333=4444[errors=2]".toList).isOk = false ∧
    (tunnelP "3333=4444[check-interval=0.1]".toList).isOk = false ∧
    (tunnelP "3333=4444[remote-tls=true]".toList).isOk = false ∧
    (tunnelP "3333=4444[strategy=round-robin,retries=2,timeout=0.1]".toList).isOk
      = true := by
  refine ⟨?_, ?_, ?_, ?_⟩ <;> decide

/-- One `name=value` item the options fold accepts: the lower-cased name is
one of `strategy`, `retries`, `timeout` and the value parses under that
name's value grammar. -/
def validOptionItem (kv : List Char × List Char) : Prop :=
  (kv.1.map Char.toLower = "strategy".toList ∧
    (parseStrategy kv.2).isSome = true) ∨
  (kv.1.map Char.toLower = "retries".toList ∧
    (parseU16Str kv.2).isSome = true) ∨
  (kv.1.map Char.toLower = "timeout".toList ∧
    (parseF32Str kv.2).isSome = true)

theorem applyOptions_cons_eq (k v : List Char)
    (rest : List (List Char × List Char)) (o : PTunnelOptions) :
    applyOptions ((k, v) :: rest) o =
      (if k.map Char.toLower = "strategy".toList then
        match parseStrategy v with
        | some s => applyOptions rest { o with lb_strategy := s }
        | none => .error .hard
      else if k.map Char.toLower = "retries".toList then
        match parseU16Str v with
        | some n => applyOptions rest { o with remote_connect_retries := n }
        | none => .error .hard
      else if k.map Char.toLower = "timeout".toList then
        match parseF32Str v with
        | some t =>
          applyOptions rest { o with options := { remote_connect_timeout := t } }
        | none => .error .hard
      else .error .hard) := rfl

/-- C8 as amended: the options fold succeeds exactly when every
`name=value` item uses one of the names `strategy`, `retries`, `timeout`
(after ASCII lower-casing) with a value its grammar accepts; an item with
any other name — `errors`, `check-interval` and `remote-tls` included —
fails the whole parse. -/
theorem applyOptions_accepts_exactly (items : List (List Char × List Char))
    (o : PTunnelOptions) :
    (∃ o2, applyOptions items o = .ok o2) ↔
      ∀ kv ∈ items, validOptionItem kv := by
  induction items generalizing o with
  | nil => simp [applyOptions]
  | cons kv rest ih =>
    obtain ⟨k, v⟩ := kv
    rw [List.forall_mem_cons, applyOptions_cons_eq]
    by_cases h1 : k.map Char.toLower = "strategy".toList
    · rw [if_pos h1]
      cases hs : parseStrategy v with
      | some s =>
        have hv : validOptionItem (k, v) := Or.inl ⟨h1, by rw [hs]; rfl⟩
        rw [ih]
        simp [hv]
      | none =>
        constructor
        · intro ⟨o2, hcontra⟩
          exact Except.noConfusion hcontra
        · intro ⟨hv, _⟩
          rcases hv with ⟨_, hsome⟩ | ⟨hk, _⟩ | ⟨hk, _⟩
          · rw [hs] at hsome
            exact Bool.noConfusion hsome
          · rw [h1] at hk
            exact absurd hk (by decide)
          · rw [h1] at hk
            exact absurd hk (by decide)
    · rw [if_neg h1]
      by_cases h2 : k.map Char.toLower = "retries".toList
      · rw [if_pos h2]
        cases hs : parseU16Str v with
        | some n =>
          have hv : validOptionItem (k, v) :=
            Or.inr (Or.inl ⟨h2, by rw [hs]; rfl⟩)
          rw [ih]
          simp [hv]
        | none =>
          constructor
          · intro ⟨o2, hcontra⟩
            exact Except.noConfusion hcontra
          · intro ⟨hv, _⟩
            rcases hv with ⟨hk, _⟩ | ⟨_, hsome⟩ | ⟨hk, _⟩
            · exact absurd hk h1
            · rw [hs] at hsome
              exact Bool.noConfusion hsome
            · rw [h2] at hk
              exact absurd hk (by decide)
      · rw [if_neg h2]
        by_cases h3 : k.map Char.toLower = "timeout".toList
        · rw [if_pos h3]
          cases hs : parseF32Str v with
          | some t =>
            have hv : validOptionItem (k, v) :=
              Or.inr (Or.inr ⟨h3, by rw [hs]; rfl⟩)
            rw [ih]
            simp [hv]
          | none =>
            constructor
            · intro ⟨o2, hcontra⟩
              exact Except.noConfusion hcontra
            · intro ⟨hv, _⟩
              rcases hv with ⟨hk, _⟩ | ⟨hk, _⟩ | ⟨_, hsome⟩
              · exact absurd hk h1
              · exact absurd hk h2
              · rw [hs] at hsome
                exact Bool.noConfusion hsome
        · rw [if_neg h3]
          constructor
          · intro ⟨o2, hcontra⟩
            exact Except.noConfusion hcontra
          · intro ⟨hv, _⟩
            rcases hv with ⟨hk, _⟩ | ⟨hk, _⟩ | ⟨hk, _⟩
            · exact absurd hk h1
            · exact absurd hk h2
            · exact absurd hk h3

end Plexy
